import Mathlib

/-
Verification of the genealogy-tree core of the MLM repository.

The repository renders a lazily fetched referral tree. A node is a
`User` record: `id`, `address`, and `referrals`, where `referrals` is
absent (children never fetched, "Unknown"), an empty array ("Known-empty"),
or a populated array ("Known-populated"). This file embeds, directly from
the TypeScript source:
  - `formatAddress` (GenealogyTree.tsx lines 21-25, identical copy in the
    demo file lines 17-21), via a faithful model of the ECMAScript
    `String.prototype.substring` clamping semantics;
  - `countTotalUsers` (GenealogyTree.tsx lines 293-301);
  - the merge `updateUserReferrals`, embedded as `updateNode`
    (GenealogyTree.tsx lines 199-218), plus instrumented variants that
    record which nodes the merge re-allocates and how many recursive calls
    it makes, for the structural-sharing and complexity analyses;
  - `hasChildren` and `childrenFetched` (GenealogyTree.tsx lines 50-51);
  - the expand-toggle handler `handleExpandToggle`
    (GenealogyTree.tsx lines 64-85), as a step function on the per-node
    view state, taking the outcome of the asynchronous fetch as input;
  - the child-rendering recursion of `TreeNode`
    (GenealogyTree.tsx lines 157-171), as `renderedNodes`, parameterised
    by the per-node expansion flags;
  - the header that displays the `Total:` and `Direct:` statistics
    (GenealogyTree.tsx lines 258-263), as `directReferralCount`;
  - the demo generator `generateDemoAddress` / `generateDemoTree`
    (demo file lines 24-67).
-/

/-- The `User` interface of the source (GenealogyTree.tsx lines 15-19):
`id: number; address: string; referrals?: User[]`. The optional `referrals`
field is `Option (List User)`: `none` models the absent field (children
never fetched), `some []` a fetched empty list, `some cs` a fetched
populated list. -/
inductive User where
  | mk (id : Nat) (address : String) (referrals : Option (List User))

/-- Projection for the `id` field. -/
def User.id : User → Nat
  | .mk i _ _ => i

/-- Projection for the `address` field. -/
def User.address : User → String
  | .mk _ a _ => a

/-- Projection for the `referrals` field. -/
def User.referrals : User → Option (List User)
  | .mk _ _ r => r

/-- ECMAScript `String.prototype.substring(start, end)`: both indices are
clamped into `[0, length]`, then swapped if out of order, and the half-open
slice between them is returned. Arguments are integers, so a negative
`start` (as arises in `formatAddress` on strings shorter than 4) clamps
to 0. -/
def jsSubstring (s : String) (intStart intEnd : Int) : String :=
  let len : Int := (s.length : Int)
  let finalStart := min (max intStart 0) len
  let finalEnd := min (max intEnd 0) len
  let lo := min finalStart finalEnd
  let hi := max finalStart finalEnd
  ((s.toList.drop lo.toNat).take (hi - lo).toNat).asString

/-- The `formatAddress` helper (GenealogyTree.tsx lines 21-25):
`address.substring(0, 6) + "..." + address.substring(address.length - 4)`;
the second call omits its end argument, which ECMAScript takes as the
length of the string. -/
def formatAddress (address : String) : String :=
  jsSubstring address 0 6 ++ "..." ++
    jsSubstring address ((address.length : Int) - 4) (address.length : Int)

mutual
/-- The helper `countTotalUsers` (GenealogyTree.tsx lines 293-301): counts
the current user, then, when the `referrals` field is present (in
JavaScript an empty array is truthy, so `some []` enters the loop and adds
nothing), adds the recursive count of every referral. -/
def countTotalUsers : User → Nat
  | .mk _ _ r =>
    1 + match r with
        | some cs => countTotalUsersList cs
        | none => 0

/-- The `for (const referral of user.referrals)` accumulation loop of
`countTotalUsers`. -/
def countTotalUsersList : List User → Nat
  | [] => 0
  | c :: rest => countTotalUsers c + countTotalUsersList rest
end

mutual
/-- The inner `updateNode` closure of `updateUserReferrals`
(GenealogyTree.tsx lines 202-215): at a node whose `address` equals the
target, replace the `referrals` field with the fetched list and stop;
otherwise, when `referrals` is present and non-empty, rebuild the node
with `updateNode` mapped over every child; otherwise return the node
untouched. -/
def updateNode (userAddress : String) (referrals : List User) : User → User
  | .mk i a r =>
    if a = userAddress then .mk i a (some referrals)
    else
      match r with
      | some cs =>
        if cs.length > 0 then .mk i a (some (updateNodeList userAddress referrals cs))
        else .mk i a (some cs)
      | none => .mk i a none

/-- The `node.referrals.map(child => updateNode(child))` call of
`updateNode`. -/
def updateNodeList (userAddress : String) (referrals : List User) : List User → List User
  | [] => []
  | c :: rest =>
      updateNode userAddress referrals c :: updateNodeList userAddress referrals rest
end

/-- The enclosing `updateUserReferrals` (GenealogyTree.tsx lines 199-218):
a null snapshot is left untouched (`if (!genealogyData) return`), otherwise
the new snapshot is `updateNode` applied to the root. -/
def updateUserReferrals (genealogyData : Option User) (userAddress : String)
    (referrals : List User) : Option User :=
  match genealogyData with
  | none => none
  | some g => some (updateNode userAddress referrals g)

mutual
/-- Instrumentation of `updateNode`: the addresses of the input nodes that
the merge re-allocates with an object spread (`{ ...node, ... }`). A node
is re-allocated when its address matches the target, or when its
`referrals` field is present and non-empty; in the remaining cases the
source returns the very same object reference. -/
def updateNodeCopied (userAddress : String) : User → List String
  | .mk _ a r =>
    if a = userAddress then [a]
    else
      match r with
      | some cs =>
        if cs.length > 0 then a :: updateNodeListCopied userAddress cs
        else []
      | none => []

/-- List part of `updateNodeCopied`, following the `map` of the source. -/
def updateNodeListCopied (userAddress : String) : List User → List String
  | [] => []
  | c :: rest => updateNodeCopied userAddress c ++ updateNodeListCopied userAddress rest
end

mutual
/-- Instrumentation of `updateNode`: how many times `updateNode` is invoked
when run on the given node, counting the outer call. The recursion stops
below a matched node and below nodes whose `referrals` field is absent or
empty, exactly as the source does. -/
def updateNodeCalls (userAddress : String) : User → Nat
  | .mk _ a r =>
    1 + (if a = userAddress then 0
      else
        match r with
        | some cs => if cs.length > 0 then updateNodeListCalls userAddress cs else 0
        | none => 0)

/-- List part of `updateNodeCalls`, following the `map` of the source. -/
def updateNodeListCalls (userAddress : String) : List User → Nat
  | [] => 0
  | c :: rest => updateNodeCalls userAddress c + updateNodeListCalls userAddress rest
end

mutual
/-- Instrumentation of `updateNode`: the nodes the merge visits (invokes
`updateNode` on), in depth-first preorder. A visited node whose address
matches the target, or whose `referrals` field is absent or empty, is a
leaf of the traversal; below a visited Known-populated non-matched node
the merge visits every child. -/
def reachedNodes (t : String) : User → List User
  | .mk i a r =>
    .mk i a r :: (if a = t then []
      else
        match r with
        | some cs => if cs.length > 0 then reachedNodesList t cs else []
        | none => [])

/-- List part of `reachedNodes`, following the `map` of the source. -/
def reachedNodesList (t : String) : List User → List User
  | [] => []
  | c :: rest => reachedNodes t c ++ reachedNodesList t rest
end

mutual
/-- Every node of a snapshot, in depth-first preorder. Statement-level
helper used to quantify over the nodes of a tree. -/
def allNodes : User → List User
  | .mk i a r =>
    .mk i a r :: (match r with
      | some cs => allNodesList cs
      | none => [])

/-- List part of `allNodes`. -/
def allNodesList : List User → List User
  | [] => []
  | c :: rest => allNodes c ++ allNodesList rest
end

mutual
/-- Whether some node of the tree carries the given address. Statement-level
helper: a node of a snapshot is an ancestor of (or equal to) the node
holding address `t` exactly when its subtree contains `t`, so this
predicate also characterises the path from the root to the target. -/
def containsAddr (t : String) : User → Bool
  | .mk _ a r =>
    a == t || (match r with
      | some cs => containsAddrList t cs
      | none => false)

/-- List part of `containsAddr`. -/
def containsAddrList (t : String) : List User → Bool
  | [] => false
  | c :: rest => containsAddr t c || containsAddrList t rest
end

/-- Addresses of the nodes on the path from the root to the node holding
address `t`: the nodes whose subtree contains `t` (when addresses are
unique these are exactly the ancestors of the target plus the target). -/
def pathAddrs (t : String) (root : User) : List String :=
  ((allNodes root).filter (fun u => containsAddr t u)).map User.address

/-- The truthiness test `user.referrals === undefined || (user.referrals &&
user.referrals.length > 0)` (GenealogyTree.tsx line 50); the
expand/collapse button is rendered exactly when it holds
(GenealogyTree.tsx line 117). -/
def hasChildren (user : User) : Bool :=
  user.referrals.isNone ||
    (match user.referrals with
     | some cs => decide (cs.length > 0)
     | none => false)

/-- The test `user.referrals !== undefined` (GenealogyTree.tsx line 51). -/
def childrenFetched (user : User) : Bool :=
  user.referrals.isSome

/-- The per-node view state of `TreeNode`: the `isExpanded` and `isLoading`
`useState` flags, together with the `referrals` field the node currently
has in the snapshot (the only part of the snapshot the toggle handler can
touch, through `updateUserReferrals`). -/
structure NodeState where
  isExpanded : Bool
  isLoading : Bool
  referrals : Option (List User)

/-- The `handleExpandToggle` handler (GenealogyTree.tsx lines 64-85), as a
step function. `fetchResult` is the outcome `onLoadChildren` would deliver
if a fetch were awaited. Returns the state after the handler completes and
whether a fetch was issued. When expanded, the handler only collapses.
Otherwise, when children were not yet fetched, it fetches: on success it
merges the children (the referrals field of the node becomes `some
children`), on failure it only logs; in both cases `setIsLoading(false)`
runs in the `finally` block and `setIsExpanded(true)` runs afterwards,
unconditionally. When children were already fetched it expands without
fetching. -/
def handleExpandToggle (s : NodeState) (fetchResult : Except String (List User)) :
    NodeState × Bool :=
  if s.isExpanded then ({ s with isExpanded := false }, false)
  else if s.referrals.isSome then ({ s with isExpanded := true }, false)
  else
    match fetchResult with
    | .ok children =>
        ({ isExpanded := true, isLoading := false, referrals := some children }, true)
    | .error _ =>
        ({ isExpanded := true, isLoading := false, referrals := none }, true)

/-- The guard of the children block of `TreeNode` (GenealogyTree.tsx line
157): `isExpanded && childrenFetched && user.referrals &&
user.referrals.length > 0 && level < 10`. -/
def shouldRenderChildren (isExpanded : Bool) (user : User) (level : Nat) : Bool :=
  isExpanded && childrenFetched user &&
    (match user.referrals with
     | some cs => decide (cs.length > 0)
     | none => false) &&
    decide (level < 10)

mutual
/-- The set of `TreeNode` instances mounted for a subtree, with their
`level` props, given an assignment `exp` of the per-node `isExpanded`
flags (keyed by address). A node always renders itself; it renders its
children, at `level + 1`, exactly under the guard of GenealogyTree.tsx
line 157. -/
def renderedNodes (exp : String → Bool) : User → Nat → List (User × Nat)
  | .mk i a r, level =>
    (.mk i a r, level) ::
      (if shouldRenderChildren (exp a) (.mk i a r) level then
        match r with
        | some cs => renderedNodesList exp cs (level + 1)
        | none => []
      else [])

/-- The `user.referrals.map(child => <TreeNode ... level={level + 1} ...>)`
part of `TreeNode`. -/
def renderedNodesList (exp : String → Bool) : List User → Nat → List (User × Nat)
  | [], _ => []
  | c :: rest, level => renderedNodes exp c level ++ renderedNodesList exp rest level
end

/-- The `Direct:` statistic of the tree header (GenealogyTree.tsx lines
258-263): the whole statistics block is rendered only when
`genealogyData?.referrals` is truthy — and in JavaScript an empty array is
truthy — in which case the displayed value is `genealogyData.referrals.
length`. So the displayed count is `some (length)` whenever the field is
present (including `some 0` for a fetched empty list) and `none` when the
field is absent. -/
def directReferralCount (root : User) : Option Nat :=
  match root.referrals with
  | some cs => some cs.length
  | none => none

/-- The demo address generator (demo file lines 24-31): 40 hexadecimal
characters, the character at position `i` being
`"0123456789abcdef".charAt((seed * (i + 1)) % 16)`, appended to `"0x"`. -/
def generateDemoAddress (seed : Nat) : String :=
  let characters := "0123456789abcdef"
  "0x" ++ (((List.range 40).map
    (fun i => characters.toList.getD ((seed * (i + 1)) % characters.length) ' ')).asString)

/-- The `createNode` closure of `generateDemoTree` (demo file lines 37-56):
allocates the next id, and when `level < 10` creates one child at
`level + 1`; an empty referral array is turned into the absent field
(`referrals.length > 0 ? referrals : undefined`). The source recursion
advances `level` toward the bound 10, so `10 - level` is the structural
decreasing argument, supplied as `fuel`; `createNode` below instantiates
`fuel := 10 - level`, which makes the `level < 10` test of the source
equivalent to `fuel > 0`. -/
def createNodeAux : Nat → Nat → Nat → User × Nat
  | 0, _, nodeId =>
    (User.mk nodeId (generateDemoAddress nodeId) none, nodeId + 1)
  | fuel + 1, level, nodeId =>
    let currentId := nodeId
    let child := createNodeAux fuel (level + 1) (nodeId + 1)
    (User.mk currentId (generateDemoAddress currentId) (some [child.1]), child.2)

/-- The `createNode(level)` call with the running `nodeId` counter made
explicit. -/
def createNode (level nodeId : Nat) : User × Nat :=
  createNodeAux (10 - level) level nodeId

/-- The demo tree (demo file lines 58-66): a fixed root address with three
chains created by `createNode(1)`, sharing the `nodeId` counter that
starts at 1. -/
def generateDemoTree : User :=
  let r1 := createNode 1 1
  let r2 := createNode 1 r1.2
  let r3 := createNode 1 r2.2
  User.mk 0 "0xYourDemoAddress1234567890" (some [r1.1, r2.1, r3.1])

/-- A chain of eleven nodes, `0xn0` at depth 0 through `0xn10` at depth 10,
the bottom node with children never fetched. Concrete input for the
depth-limit analysis. -/
def chainNode : Nat → Nat → User
  | 0, k => User.mk k ("0xn" ++ toString k) none
  | n + 1, k => User.mk k ("0xn" ++ toString k) (some [chainNode n (k + 1)])

/-- The eleven-node chain rooted at depth 0. -/
def chain11 : User := chainNode 10 0

/-- Concrete snapshot for the merge-locality analysis: the root has an
Unknown child `0xa` (the merge target) and a Known-populated sibling
subtree `0xb → 0xc` that lies outside the path from the root to the
target. -/
def exampleSnapshotC2 : User :=
  User.mk 0 "0xroot" (some [User.mk 1 "0xa" none,
    User.mk 2 "0xb" (some [User.mk 3 "0xc" none])])

/-- Deep induction principle for `User`: to prove a property of every node
it suffices to prove it for `User.mk i a r` assuming it for every child
listed in `r`. -/
theorem User.indDeep (P : User → Prop)
    (h : ∀ i a r, (∀ cs, r = some cs → ∀ c ∈ cs, P c) → P (User.mk i a r)) :
    ∀ u, P u
  | .mk i a r =>
    h i a r (fun cs hcs c hc =>
      have hlt : sizeOf c < sizeOf (User.mk i a r) := by
        subst hcs
        have h1 : sizeOf c < sizeOf cs := List.sizeOf_lt_of_mem hc
        simp only [User.mk.sizeOf_spec, Option.some.sizeOf_spec]
        omega
      User.indDeep P h c)
termination_by u => sizeOf u
decreasing_by exact hlt

/-- The list half of `containsAddr` is `List.any` of the node half. -/
theorem containsAddrList_eq_any (t : String) (cs : List User) :
    containsAddrList t cs = cs.any (containsAddr t) := by
  induction cs with
  | nil => simp [containsAddrList]
  | cons c rest ih => simp [containsAddrList, ih]

/-- The list half of `updateNode` is `List.map` of the node half. -/
theorem updateNodeList_eq_map (t : String) (C : List User) (cs : List User) :
    updateNodeList t C cs = cs.map (updateNode t C) := by
  induction cs with
  | nil => simp [updateNodeList]
  | cons c rest ih => simp [updateNodeList, ih]

/-- The list half of `countTotalUsers` is the sum of the node half. -/
theorem countTotalUsersList_eq_sum (cs : List User) :
    countTotalUsersList cs = (cs.map countTotalUsers).sum := by
  induction cs with
  | nil => simp [countTotalUsersList]
  | cons c rest ih => simp [countTotalUsersList, ih]

/-- The list half of `updateNodeCalls` is the sum of the node half. -/
theorem updateNodeListCalls_eq_sum (t : String) (cs : List User) :
    updateNodeListCalls t cs = (cs.map (updateNodeCalls t)).sum := by
  induction cs with
  | nil => simp [updateNodeListCalls]
  | cons c rest ih => simp [updateNodeListCalls, ih]

/-- Membership in the list half of `renderedNodes` is membership in the
rendering of one of the children. -/
theorem mem_renderedNodesList (exp : String → Bool) (cs : List User) (l : Nat)
    (p : User × Nat) :
    p ∈ renderedNodesList exp cs l ↔ ∃ c ∈ cs, p ∈ renderedNodes exp c l := by
  induction cs with
  | nil => simp [renderedNodesList]
  | cons c rest ih => simp [renderedNodesList, ih]

/-- When no node of the tree carries the target address, the merge returns
the tree unchanged. -/
theorem updateNode_of_not_containsAddr (t : String) (C : List User) :
    ∀ u, containsAddr t u = false → updateNode t C u = u := by
  refine User.indDeep _ ?_
  intro i a r hIH hc
  cases r with
  | none =>
    simp [containsAddr] at hc
    simp [updateNode, hc]
  | some cs =>
    simp [containsAddr, containsAddrList_eq_any, Bool.or_eq_false_iff] at hc
    obtain ⟨hat, hall⟩ := hc
    simp only [updateNode, if_neg hat]
    by_cases hlen : cs.length > 0
    · rw [if_pos hlen, updateNodeList_eq_map]
      have hmap : cs.map (updateNode t C) = cs := by
        rw [List.map_congr_left (fun c hcmem => hIH cs rfl c hcmem (hall c hcmem))]
        exact List.map_id cs
      rw [hmap]
    · rw [if_neg hlen]

/-- Applying the merge twice with the same address and children gives the
same snapshot as applying it once. -/
theorem updateNode_idem (t : String) (C : List User) :
    ∀ u, updateNode t C (updateNode t C u) = updateNode t C u := by
  refine User.indDeep _ ?_
  intro i a r hIH
  cases r with
  | none => by_cases hat : a = t <;> simp [updateNode, hat]
  | some cs =>
    by_cases hat : a = t
    · simp [updateNode, hat]
    · by_cases hlen : cs.length > 0
      · rw [updateNode.eq_1, if_neg hat, if_pos hlen]
        have hlen2 : (updateNodeList t C cs).length > 0 := by
          rw [updateNodeList_eq_map]; simpa using hlen
        rw [updateNode.eq_1, if_neg hat, if_pos hlen2]
        simp only [updateNodeList_eq_map, List.map_map]
        have hcg : cs.map (updateNode t C ∘ updateNode t C) = cs.map (updateNode t C) :=
          List.map_congr_left (fun c hcmem => hIH cs rfl c hcmem)
        rw [hcg]
      · have hnil : cs = [] := List.length_eq_zero.mp (by omega)
        subst hnil
        simp [updateNode, hat]

/-- When the target address occurs nowhere in the tree, the merge still
visits every node: the number of `updateNode` invocations equals the node
count of the whole tree. -/
theorem updateNodeCalls_of_not_contains (t : String) :
    ∀ u, containsAddr t u = false → updateNodeCalls t u = countTotalUsers u := by
  refine User.indDeep _ ?_
  intro i a r hIH hc
  cases r with
  | none =>
    simp [updateNodeCalls, countTotalUsers]
  | some cs =>
    simp [containsAddr, containsAddrList_eq_any, Bool.or_eq_false_iff] at hc
    obtain ⟨hat, hall⟩ := hc
    by_cases hlen : cs.length > 0
    · rw [updateNodeCalls, countTotalUsers]
      simp only [if_neg hat, if_pos hlen, updateNodeListCalls_eq_sum,
        countTotalUsersList_eq_sum]
      congr 2
      exact List.map_congr_left fun c hcmem => hIH cs rfl c hcmem (hall c hcmem)
    · have hnil : cs = [] := List.length_eq_zero.mp (by omega)
      subst hnil
      simp [updateNodeCalls, countTotalUsers, countTotalUsersList, hat]

/-- A node mounted at level 10 or beyond renders no children at all. -/
theorem renderedNodes_at_deep (exp : String → Bool) (i : Nat) (a : String)
    (r : Option (List User)) (level : Nat) (h : 10 ≤ level) :
    renderedNodes exp (User.mk i a r) level = [(User.mk i a r, level)] := by
  have hguard : shouldRenderChildren (exp a) (User.mk i a r) level = false := by
    simp [shouldRenderChildren]
    omega
  cases r with
  | none => simp [renderedNodes, hguard]
  | some cs => simp [renderedNodes, hguard]

/-- Every mounted node of a subtree rooted at a level at most 10 sits at a
level at most 10. -/
theorem renderedNodes_level_bound (exp : String → Bool) :
    ∀ u, ∀ level, level ≤ 10 → ∀ p ∈ renderedNodes exp u level, p.2 ≤ 10 := by
  refine User.indDeep _ ?_
  intro i a r hIH level hle p hp
  cases r with
  | none =>
    simp [renderedNodes] at hp
    subst hp
    exact hle
  | some cs =>
    simp only [renderedNodes] at hp
    rcases List.mem_cons.mp hp with hhead | htail
    · subst hhead
      exact hle
    · by_cases hg : shouldRenderChildren (exp a) (User.mk i a (some cs)) level = true
      · rw [if_pos hg] at htail
        rcases (mem_renderedNodesList exp cs (level + 1) p).mp htail with ⟨c, hcmem, hpc⟩
        have hlt : level < 10 := by
          simp [shouldRenderChildren] at hg
          omega
        exact hIH cs rfl c hcmem (level + 1) (by omega) p hpc
      · rw [if_neg hg] at htail
        simp at htail

/-- The demo address depends only on the seed modulo 16: each of its 40
generated characters is indexed by `(seed * (i + 1)) % 16`. -/
theorem generateDemoAddress_mod16 (s t : Nat) (h : s % 16 = t % 16) :
    generateDemoAddress s = generateDemoAddress t := by
  unfold generateDemoAddress
  simp only []
  congr 1
  congr 1
  apply List.map_congr_left
  intro i hi
  congr 1
  show s * (i + 1) % ("0123456789abcdef" : String).length =
    t * (i + 1) % ("0123456789abcdef" : String).length
  have hlen : ("0123456789abcdef" : String).length = 16 := by decide
  rw [hlen, Nat.mul_mod, h, ← Nat.mul_mod]

/-- The length of `String.toList` is the length of the string. -/
theorem toList_length_eq (s : String) : s.toList.length = s.length := rfl

/-- On a string of length at least 10, `formatAddress` yields the first six
characters, the ellipsis, and the last four characters. -/
theorem formatAddress_long (s : String) (h : 10 ≤ s.length) :
    formatAddress s =
      (s.toList.take 6).asString ++ "..." ++ (s.toList.drop (s.length - 4)).asString := by
  have hn : (10 : Int) ≤ (s.length : Int) := by exact_mod_cast h
  simp only [formatAddress, jsSubstring]
  have e1 : min (max (0 : Int) 0) (s.length : Int) = 0 := by omega
  have e2 : min (max (6 : Int) 0) (s.length : Int) = 6 := by omega
  have e3 : min (max ((s.length : Int) - 4) 0) (s.length : Int) = (s.length : Int) - 4 := by
    omega
  have e4 : min (max ((s.length : Int)) 0) (s.length : Int) = (s.length : Int) := by omega
  rw [e1, e2, e3, e4]
  have e5 : min (0 : Int) 6 = 0 := by omega
  have e6 : max (0 : Int) 6 = 6 := by omega
  have e7 : min ((s.length : Int) - 4) (s.length : Int) = (s.length : Int) - 4 := by omega
  have e8 : max ((s.length : Int) - 4) (s.length : Int) = (s.length : Int) := by omega
  rw [e5, e6, e7, e8]
  have e9 : ((6 : Int) - 0).toNat = 6 := by omega
  have e10 : (((s.length : Int)) - ((s.length : Int) - 4)).toNat = 4 := by omega
  have e11 : ((s.length : Int) - 4).toNat = s.length - 4 := by omega
  have e12 : ((0 : Int)).toNat = 0 := by omega
  rw [e9, e10, e11, e12, List.drop_zero]
  congr 1
  have hlen : (s.toList.drop (s.length - 4)).length ≤ 4 := by
    rw [List.length_drop, toList_length_eq]
    omega
  rw [List.take_of_length_le hlen]

/-- On every string, `formatAddress` is defined and returns a string of
length `min 6 length + 3 + min 4 length`: the two slices simply shrink (and
overlap) on short inputs, with no failure. -/
theorem formatAddress_length_eq (s : String) :
    (formatAddress s).length = min 6 s.length + 3 + min 4 s.length := by
  simp only [formatAddress, jsSubstring]
  rw [String.length_append, String.length_append,
    List.length_asString, List.length_asString,
    List.length_take, List.length_drop, List.length_take, List.length_drop,
    toList_length_eq]
  have h3 : ("..." : String).length = 3 := rfl
  rw [h3]
  omega

/-- Membership in the list half of `reachedNodes` is membership in the
visit list of one of the children. -/
theorem mem_reachedNodesList (t : String) (cs : List User) (v : User) :
    v ∈ reachedNodesList t cs ↔ ∃ c ∈ cs, v ∈ reachedNodes t c := by
  induction cs with
  | nil => simp [reachedNodesList]
  | cons c rest ih => simp [reachedNodesList, ih]

/-- An address copied while merging into some member of a children list is
copied while merging into the list. -/
theorem mem_updateNodeListCopied_of_mem (t : String) (cs : List User) (c : User)
    (hc : c ∈ cs) (x : String) (hx : x ∈ updateNodeCopied t c) :
    x ∈ updateNodeListCopied t cs := by
  induction cs with
  | nil => cases hc
  | cons d rest ih =>
    simp only [updateNodeListCopied, List.mem_append]
    rcases List.mem_cons.mp hc with h1 | h2
    · subst h1
      exact Or.inl hx
    · exact Or.inr (ih h2)

/-- Every node the merge visits that matches the target or is
Known-populated is re-allocated by the merge. -/
theorem updateNodeCopied_complete (t : String) :
    ∀ u, ∀ v ∈ reachedNodes t u,
      (v.address = t ∨ ∃ c cs0, v.referrals = some (c :: cs0)) →
      v.address ∈ updateNodeCopied t u := by
  refine User.indDeep _ ?_
  intro i a r hIH v hv hcond
  cases r with
  | none =>
    simp [reachedNodes] at hv
    subst hv
    rcases hcond with hat | ⟨c, cs0, heq⟩
    · simp [User.address] at hat
      simp [updateNodeCopied, hat, User.address]
    · simp [User.referrals] at heq
  | some cs =>
    simp only [reachedNodes] at hv
    rcases List.mem_cons.mp hv with hhead | htail
    · subst hhead
      by_cases hat : a = t
      · simp [updateNodeCopied, hat, User.address]
      · rcases hcond with hat2 | ⟨c, cs0, heq⟩
        · simp [User.address] at hat2
          exact absurd hat2 hat
        · simp only [User.referrals, Option.some.injEq] at heq
          have hlen : cs.length > 0 := by
            subst heq
            simp
          simp [updateNodeCopied, hat, hlen, User.address]
    · by_cases hat : a = t
      · rw [if_pos hat] at htail
        simp at htail
      · rw [if_neg hat] at htail
        by_cases hlen : cs.length > 0
        · rw [if_pos hlen] at htail
          rcases (mem_reachedNodesList t cs v).mp htail with ⟨c, hcmem, hvc⟩
          have hcop := hIH cs rfl c hcmem v hvc hcond
          have hmem := mem_updateNodeListCopied_of_mem t cs c hcmem v.address hcop
          simp only [updateNodeCopied, if_neg hat, if_pos hlen]
          exact List.mem_cons_of_mem a hmem
        · rw [if_neg hlen] at htail
          simp at htail

/-- Claim C1, counterexample. The claim states that after a failed fetch
the node ends in the Collapsed state and that the next toggle issues the
fetch again. On the code, a toggle of a collapsed node with Unknown
children whose fetch fails leaves `isExpanded = true` (the handler runs
`setIsExpanded(true)` after the catch block), and the toggle that follows
merely collapses the node and issues no fetch. -/
theorem C1_counterexample :
    (handleExpandToggle ⟨false, false, none⟩ (Except.error "network")).1.isExpanded ≠ false ∧
    (handleExpandToggle (handleExpandToggle ⟨false, false, none⟩ (Except.error "network")).1
        (Except.error "retry")).2 ≠ true := by decide

/-- Claim C1, amended: when a toggle of a collapsed node with Unknown
children meets a fetch failure, the snapshot is untouched and the children
stay Unknown (`referrals` remains `none`, so failures are not cached as
known-empty), but the node ends Expanded, not Collapsed; the next toggle
collapses it without fetching, and only the toggle after that issues the
fetch again. -/
theorem C1_fetch_failure :
    ∀ (e : String) (r2 r3 : Except String (List User)),
      handleExpandToggle ⟨false, false, none⟩ (Except.error e) = (⟨true, false, none⟩, true) ∧
      handleExpandToggle ⟨true, false, none⟩ r2 = (⟨false, false, none⟩, false) ∧
      (handleExpandToggle ⟨false, false, none⟩ r3).2 = true := by
  intro e r2 r3
  refine ⟨rfl, rfl, ?_⟩
  cases r3 <;> rfl

/-- Claim C2, counterexample. The claim states that the merge shallow-copies
only the ancestors on the path from the root to the matched node, shares
every node outside that path, and does work proportional to the path
length. On `exampleSnapshotC2` with target `0xa`, the sibling node `0xb`
lies outside the path from the root to `0xa` yet is re-allocated by the
merge, and the number of `updateNode` invocations exceeds the length of
that path. -/
theorem C2_counterexample :
    "0xb" ∈ updateNodeCopied "0xa" exampleSnapshotC2 ∧
    "0xb" ∉ pathAddrs "0xa" exampleSnapshotC2 ∧
    (pathAddrs "0xa" exampleSnapshotC2).length < updateNodeCalls "0xa" exampleSnapshotC2 := by
  decide

/-- Claim C2, amended: the merge recurses through the whole tree, not just
the path to the target. Nodes with an absent or empty `referrals` field
that do not match the target are returned as the very same reference
(shared unchanged), but every Known-populated node it reaches is
shallow-copied, on or off the path to the target (every visited node that
matches the target or is Known-populated has its address recorded by the
re-allocation instrumentation); when the target is absent the merge visits
every node of the tree, so its work is proportional to the tree size, not
to the path length. -/
theorem C2_merge_copies_all_populated_nodes :
    (∀ (t : String) (C : List User) (i : Nat) (a : String) (r : Option (List User)),
        a ≠ t → (r = none ∨ r = some ([] : List User)) →
        updateNode t C (User.mk i a r) = User.mk i a r) ∧
    (∀ (t : String) (u : User), ∀ v ∈ reachedNodes t u,
        (v.address = t ∨ ∃ c cs0, v.referrals = some (c :: cs0)) →
        v.address ∈ updateNodeCopied t u) ∧
    (∀ (t : String) (u : User), containsAddr t u = false →
        updateNodeCalls t u = countTotalUsers u) := by
  refine ⟨?_, ?_, ?_⟩
  · intro t C i a r hat hr
    rcases hr with h0 | h0 <;> subst h0 <;> simp [updateNode, hat]
  · intro t u v hv hcond
    exact updateNodeCopied_complete t u v hv hcond
  · intro t u h
    exact updateNodeCalls_of_not_contains t u h

/-- Witness for `C2_merge_copies_all_populated_nodes` at concrete inputs. -/
theorem C2_witness :
    updateNode "0xt" [] (User.mk 5 "0xleaf" none) = User.mk 5 "0xleaf" none ∧
    User.address exampleSnapshotC2 ∈ updateNodeCopied "0xa" exampleSnapshotC2 ∧
    updateNodeCalls "0xt" exampleSnapshotC2 = countTotalUsers exampleSnapshotC2 :=
  ⟨C2_merge_copies_all_populated_nodes.1 "0xt" [] 5 "0xleaf" none (by decide) (Or.inl rfl),
   C2_merge_copies_all_populated_nodes.2.1 "0xa" exampleSnapshotC2 exampleSnapshotC2
     (List.mem_cons_self _ _)
     (Or.inr ⟨User.mk 1 "0xa" none,
       [User.mk 2 "0xb" (some [User.mk 3 "0xc" none])], rfl⟩),
   C2_merge_copies_all_populated_nodes.2.2 "0xt" exampleSnapshotC2 (by decide)⟩

/-- Claim C3, counterexample. The claim states that no fetch is ever issued
for a node at depth 10 or deeper. On the eleven-node chain with every node
expanded, the node `0xn10` is mounted at level 10 with Unknown children
and it has the expand affordance (`hasChildren` is true), and a toggle of
such a collapsed unfetched node issues a fetch — so a fetch of a depth-10
node can be issued. -/
theorem C3_counterexample :
    ((renderedNodes (fun _ => true) chain11 0).map (fun p => (p.1.address, p.2))) =
      [("0xn0", 0), ("0xn1", 1), ("0xn2", 2), ("0xn3", 3), ("0xn4", 4), ("0xn5", 5),
       ("0xn6", 6), ("0xn7", 7), ("0xn8", 8), ("0xn9", 9), ("0xn10", 10)] ∧
    hasChildren (User.mk 10 "0xn10" none) = true ∧
    (handleExpandToggle ⟨false, false, none⟩ (Except.ok [])).2 = true := by decide

/-- Claim C3, amended: children of a node at depth 10 or deeper are never
rendered (the node renders alone, even when its children are already
fetched and it is expanded), and consequently every mounted node of a tree
rooted at depth 0 sits at depth at most 10 — so nodes at depth 11 or
deeper are never mounted and can never fetch. A node at depth exactly 10,
however, is mounted, keeps its expand affordance when its children are
Unknown or populated, and its toggle can still issue a fetch. -/
theorem C3_depth_limit :
    (∀ (exp : String → Bool) (i : Nat) (a : String) (r : Option (List User)) (level : Nat),
        10 ≤ level → renderedNodes exp (User.mk i a r) level = [(User.mk i a r, level)]) ∧
    (∀ (exp : String → Bool) (u : User) (p : User × Nat),
        p ∈ renderedNodes exp u 0 → p.2 ≤ 10) := by
  constructor
  · intro exp i a r level h
    exact renderedNodes_at_deep exp i a r level h
  · intro exp u p hp
    exact renderedNodes_level_bound exp u 0 (by omega) p hp

/-- Witness for `C3_depth_limit` at concrete inputs. -/
theorem C3_witness :
    renderedNodes (fun _ => true) (User.mk 0 "0xw" none) 10 = [(User.mk 0 "0xw" none, 10)] ∧
    ((User.mk 0 "0xw" none, 0) : User × Nat).2 ≤ 10 := by
  constructor
  · exact C3_depth_limit.1 (fun _ => true) 0 "0xw" none 10 (by decide)
  · refine C3_depth_limit.2 (fun _ => true) (User.mk 0 "0xw" none) (User.mk 0 "0xw" none, 0) ?_
    simp [renderedNodes]

/-- Claim C4, counterexample. The claim states that a node whose children
are Unknown and that has never been toggled offers no expand affordance.
On the code, `hasChildren` is true for a node with an absent `referrals`
field, so the expand button is rendered for it. -/
theorem C4_counterexample : hasChildren (User.mk 7 "0xunknown" none) ≠ false := by decide

/-- Claim C4, amended: a Known-empty node offers no expand affordance, but
a node with Unknown children does offer one (that button is precisely how
the lazy fetch is triggered), as does a Known-populated node. -/
theorem C4_expand_affordance :
    (∀ (i : Nat) (a : String), hasChildren (User.mk i a (some [])) = false) ∧
    (∀ (i : Nat) (a : String), hasChildren (User.mk i a none) = true) ∧
    (∀ (i : Nat) (a : String) (c : User) (cs : List User),
        hasChildren (User.mk i a (some (c :: cs))) = true) := by
  refine ⟨?_, ?_, ?_⟩
  · intro i a
    simp [hasChildren, User.referrals]
  · intro i a
    simp [hasChildren, User.referrals]
  · intro i a c cs
    simp [hasChildren, User.referrals]

/-- Claim C5, counterexample. The claim states that no direct-referral
count is displayed when the children of the root are Known-empty. On the
code, an empty array is truthy, so the statistics block is rendered for a
root with `referrals = []` and displays the value 0. -/
theorem C5_counterexample :
    directReferralCount (User.mk 0 "0xroot3" (some [])) ≠ none := by decide

/-- Claim C5, amended: the direct-referral count is the length of the
children sequence of the root whenever the children are Known (populated
or empty — a Known-empty root displays 0), and no value is displayed only
when the children of the root are Unknown. -/
theorem C5_direct_referral_count :
    (∀ (i : Nat) (a : String) (cs : List User),
        directReferralCount (User.mk i a (some cs)) = some cs.length) ∧
    (∀ (i : Nat) (a : String), directReferralCount (User.mk i a none) = none) :=
  ⟨fun _ _ _ => rfl, fun _ _ => rfl⟩

/-- Claim C6: `countTotalUsers` counts the nodes reachable through
Known-populated children. An Unknown node contributes exactly 1, a
Known-empty node contributes exactly 1, a Known-populated node contributes
1 plus the counts of its children, and the root with Known-populated
children `[X, Y]` where X and Y are Unknown counts 3. -/
theorem C6_countAll :
    (∀ (i : Nat) (a : String), countTotalUsers (User.mk i a none) = 1) ∧
    (∀ (i : Nat) (a : String), countTotalUsers (User.mk i a (some [])) = 1) ∧
    (∀ (i : Nat) (a : String) (cs : List User),
        countTotalUsers (User.mk i a (some cs)) = 1 + (cs.map countTotalUsers).sum) ∧
    countTotalUsers (User.mk 0 "0xroot2" (some [User.mk 1 "0xX" none, User.mk 2 "0xY" none])) = 3 := by
  refine ⟨?_, ?_, ?_, ?_⟩
  · intro i a
    simp [countTotalUsers]
  · intro i a
    simp [countTotalUsers, countTotalUsersList]
  · intro i a cs
    simp [countTotalUsers, countTotalUsersList_eq_sum]
  · decide

/-- Claim C7: when no node of the snapshot carries the target address, the
merge returns a snapshot equal to the input — a silent no-op, not an
error. -/
theorem C7_merge_noop_on_missing_target (t : String) (C : List User) (u : User)
    (h : containsAddr t u = false) : updateNode t C u = u :=
  updateNode_of_not_containsAddr t C u h

/-- Witness for `C7_merge_noop_on_missing_target` at concrete inputs. -/
theorem C7_witness :
    containsAddr "0xmissing" (User.mk 0 "0xr" (some [User.mk 1 "0xs" none])) = false ∧
    updateNode "0xmissing" [User.mk 9 "0xnew" none]
        (User.mk 0 "0xr" (some [User.mk 1 "0xs" none])) =
      User.mk 0 "0xr" (some [User.mk 1 "0xs" none]) :=
  ⟨by decide,
   C7_merge_noop_on_missing_target "0xmissing" [User.mk 9 "0xnew" none]
     (User.mk 0 "0xr" (some [User.mk 1 "0xs" none])) (by decide)⟩

/-- Claim C8: the merge is idempotent — applying it twice with the same
address and children equals applying it once, for every snapshot, address
and children list. -/
theorem C8_merge_idempotent (t : String) (C : List User) (u : User) :
    updateNode t C (updateNode t C u) = updateNode t C u :=
  updateNode_idem t C u

/-- Claim C9, counterexample. The claim states that no two distinct nodes
of any snapshot produced by the system, the demo tree included, share an
address. The demo tree contains 31 nodes whose addresses are generated
from seeds 0 to 30, and the generated address depends only on the seed
modulo 16, so the address list of the demo tree has duplicates. -/
theorem C9_counterexample :
    ¬ ((allNodes generateDemoTree).map User.address).Nodup := by decide

/-- Claim C9, amended: in the demo tree the node ids are pairwise distinct,
but the addresses are not — `generateDemoAddress` collides on any two
seeds that are congruent modulo 16 (for example the nodes with ids 2 and
18), so address uniqueness fails for the demo generator. -/
theorem C9_demo_ids_unique :
    ((allNodes generateDemoTree).map User.id).Nodup ∧
    (∀ s t : Nat, s % 16 = t % 16 → generateDemoAddress s = generateDemoAddress t) := by
  constructor
  · decide
  · intro s t h
    exact generateDemoAddress_mod16 s t h

/-- Witness for `C9_demo_ids_unique` at concrete inputs. -/
theorem C9_witness :
    ((allNodes generateDemoTree).map User.id).Nodup ∧
    generateDemoAddress 2 = generateDemoAddress 18 :=
  ⟨C9_demo_ids_unique.1, C9_demo_ids_unique.2 2 18 (by decide)⟩

/-- Claim C10: `formatAddress` is total on every input string. On strings
of length at least 10 it returns the first six characters, then the
ellipsis, then the last four characters; on every string, shorter ones
included, it returns a string of length `min 6 length + 3 + min 4 length`
(the slices shrink and may overlap on short inputs) rather than failing. -/
theorem C10_formatAddress_total :
    (∀ s : String, 10 ≤ s.length →
        formatAddress s =
          (s.toList.take 6).asString ++ "..." ++ (s.toList.drop (s.length - 4)).asString) ∧
    (∀ s : String, (formatAddress s).length = min 6 s.length + 3 + min 4 s.length) :=
  ⟨formatAddress_long, formatAddress_length_eq⟩

/-- Witness for `C10_formatAddress_total` at concrete inputs. -/
theorem C10_witness :
    formatAddress "0x12ab34cd56ef" =
      (("0x12ab34cd56ef" : String).toList.take 6).asString ++ "..." ++
        (("0x12ab34cd56ef" : String).toList.drop (("0x12ab34cd56ef" : String).length - 4)).asString ∧
    (formatAddress "ab").length = min 6 ("ab" : String).length + 3 + min 4 ("ab" : String).length :=
  ⟨C10_formatAddress_total.1 "0x12ab34cd56ef" (by decide),
   C10_formatAddress_total.2 "ab"⟩
